import Mathlib

/-!
Verification of the `rdf` vocabulary-parsing core (files `data.go` and the
traversal/dispatch file of the same package) against its natural-language
specification.

The embedding models Go's decoded-JSON `interface{}` values as the inductive
`Rdf.Value`, Go maps (`map[string]interface{}`, `map[string]VocabularyType`,
...) as association lists with first-match lookup, Go's `(T, error)` returns
as explicit pairs with `Option Rdf.Err` / `Except Rdf.Err`, and pointer
mutation of `*ParsingContext` as explicit state passing.  `RDFNode` handlers
(an interface in Go) are modelled as records of state transformers; because a
`ParsingContext` stores handler references in its two override slots, handlers
are identified by numeric ids and every traversal function receives the
id-to-handler environment `env : Nat → RDFNode` (the Go heap of handler
objects).  Go map iteration order is unspecified; the association-list order
plays that role, and order-sensitive theorems quantify over it.
-/

namespace Rdf

/-- Decoded JSON values, the shapes a Go `interface{}` produced by
`encoding/json` can take: string, number, boolean, null, array, object. -/
inductive Value where
  | str (s : String)
  | num (n : Int)
  | boolean (b : Bool)
  | null
  | arr (elems : List Value)
  | obj (fields : List (String × Value))

/-- First-match association-list lookup, modelling Go map indexing
`m[k]` with its `ok` flag (`none` = key absent). -/
def lookupKey {β : Type} (k : String) : List (String × β) → Option β
  | [] => none
  | (k', v) :: rest => if k' = k then some v else lookupKey k rest

theorem lookupKey_sizeOf {β : Type} [SizeOf β] {k : String} {v : β}
    {l : List (String × β)} (h : lookupKey k l = some v) : sizeOf v < sizeOf l := by
  induction l with
  | nil => simp [lookupKey] at h
  | cons p rest ih =>
    obtain ⟨k', v'⟩ := p
    simp only [lookupKey] at h
    split at h
    · cases h
      simp only [List.cons.sizeOf_spec, Prod.mk.sizeOf_spec]
      omega
    · have := ih h
      simp only [List.cons.sizeOf_spec]
      omega

theorem lookupKey_mem {β : Type} {k : String} {v : β}
    {l : List (String × β)} (h : lookupKey k l = some v) : (k, v) ∈ l := by
  induction l with
  | nil => simp [lookupKey] at h
  | cons p rest ih =>
    obtain ⟨k', v'⟩ := p
    simp only [lookupKey] at h
    split at h
    · cases h
      subst_vars
      exact List.mem_cons_self _ _
    · exact List.mem_cons_of_mem _ (ih h)

/-- The `error` values the package can produce, one constructor per
`fmt.Errorf` site (plus `handlerErr` for the opaque failures of handler
implementations outside this package).  `malformedContextSingle` is the
"single @context value is not a string" error assigned in
`parseJSONLDContext`; see that definition for why it never escapes. -/
inductive Err where
  | noContext
  | malformedContextDictInArray
  | malformedContextArray
  | malformedContextDict
  | malformedContextSingle
  | applyRequestedNodeFailed
  | noNodeEnter (key : String)
  | noNodeExit (key : String)
  | noNodeApply (key : String) (value : Value)
  | duplicateTypeName (name : String)
  | duplicatePropertyName
  | duplicateValueName
  | registryUnknown (name : String)
  | handlerErr (code : Nat)

/-- VocabularyReference from data.go: name, URI, optional origin vocabulary.
A parsed `*url.URL` is modelled as the URI string (`none` = nil pointer). -/
structure VocabularyReference where
  Name : String := ""
  URI : Option String := none
  Vocab : String := ""

/-- VocabularyExample from data.go: name, URI and an opaque example payload
(`interface{}` in Go, so an arbitrary decoded JSON value). -/
structure VocabularyExample where
  Name : String := ""
  URI : Option String := none
  Example : Value := .null

/-- VocabularyValue from data.go. -/
structure VocabularyValue where
  Name : String := ""
  URI : Option String := none
  DefinitionType : String := ""
  Zero : String := ""

/-- VocabularyType from data.go. -/
structure VocabularyType where
  Name : String := ""
  URI : Option String := none
  Notes : String := ""
  DisjointWith : List VocabularyReference := []
  Extends : List VocabularyReference := []
  Properties : List VocabularyReference := []
  WithoutProperties : List VocabularyReference := []
  Examples : List VocabularyExample := []

/-- VocabularyProperty from data.go. -/
structure VocabularyProperty where
  Name : String := ""
  URI : Option String := none
  Notes : String := ""
  Domain : List VocabularyReference := []
  Range : List VocabularyReference := []
  Examples : List VocabularyExample := []
  SubpropertyOf : VocabularyReference := {}
  Functional : Bool := false
  NaturalLanguageMap : Bool := false

/-- Vocabulary from data.go: the three name-keyed mappings.  Go's
`map[string]T` is modelled as an association list with distinct keys;
`SetType`/`SetProperty`/`SetValue` check for the key before inserting, so
keys stay distinct.  The Go lazy `make(map...)` initialization is a no-op
here (the empty list is the zero value). -/
structure Vocabulary where
  Types : List (String × VocabularyType) := []
  Properties : List (String × VocabularyProperty) := []
  Values : List (String × VocabularyValue) := []

/-- ParsedVocabulary from data.go. -/
structure ParsedVocabulary where
  Vocab : Vocabulary := {}
  References : List (String × Vocabulary) := []

/-- Vocabulary.SetType from data.go.  Go mutates the receiver and returns
only an `error`; here the (possibly unchanged) vocabulary is returned
alongside the optional error. -/
def Vocabulary.SetType (v : Vocabulary) (name : String) (a : VocabularyType) :
    Option Err × Vocabulary :=
  match lookupKey name v.Types with
  | some _ => (some (.duplicateTypeName name), v)
  | none => (none, { v with Types := v.Types ++ [(name, a)] })

/-- Vocabulary.SetProperty from data.go (its duplicate error does not carry
the offending name, unlike SetType's). -/
def Vocabulary.SetProperty (v : Vocabulary) (name : String) (a : VocabularyProperty) :
    Option Err × Vocabulary :=
  match lookupKey name v.Properties with
  | some _ => (some .duplicatePropertyName, v)
  | none => (none, { v with Properties := v.Properties ++ [(name, a)] })

/-- Vocabulary.SetValue from data.go. -/
def Vocabulary.SetValue (v : Vocabulary) (name : String) (a : VocabularyValue) :
    Option Err × Vocabulary :=
  match lookupKey name v.Values with
  | some _ => (some .duplicateValueName, v)
  | none => (none, { v with Values := v.Values ++ [(name, a)] })

/-- The values a `ParsingContext.Current` (`interface{}` in Go) takes in this
package: nil, one of the five vocabulary entity kinds, or an arbitrary other
value (Go's `interface{}` admits any value; `payload` carries the event list
used by the instrumentation handlers in the theorems below). -/
inductive TraceEvent where
  | enter (node : Nat) (key : String)
  | exit (node : Nat) (key : String)
  | apply (node : Nat) (key : String) (value : Value)

inductive Entity where
  | null
  | vType (t : VocabularyType)
  | vProperty (p : VocabularyProperty)
  | vValue (v : VocabularyValue)
  | vExample (e : VocabularyExample)
  | vReference (r : VocabularyReference)
  | payload (events : List TraceEvent)

/-- The `nameGetter` capability query `Current.(nameGetter)`: every one of
the five concrete entity kinds in data.go implements `GetName` by returning
its `Name` field; nil and other values do not implement it. -/
def Entity.getName? : Entity → Option String
  | .vType t => some t.Name
  | .vProperty p => some p.Name
  | .vValue v => some v.Name
  | .vExample e => some e.Name
  | .vReference r => some r.Name
  | _ => none

/-- ParsingContext from the traversal file.  The two override slots hold
handler ids (`RDFNode` references in Go); `env : Nat → RDFNode` resolves
them at dispatch time. -/
structure ParsingContext where
  Result : ParsedVocabulary := {}
  Current : Entity := .null
  Name : String := ""
  Stack : List Entity := []
  OnlyApplyThisNodeNextLevel : Option Nat := none
  OnlyApplied : Bool := false
  OnlyApplyThisNode : Option Nat := none

def ParsingContext.SetOnlyApplyThisNode (p : ParsingContext) (n : Nat) : ParsingContext :=
  { p with OnlyApplyThisNode := some n }

def ParsingContext.ResetOnlyApplyThisNode (p : ParsingContext) : ParsingContext :=
  { p with OnlyApplyThisNode := none }

def ParsingContext.SetOnlyApplyThisNodeNextLevel (p : ParsingContext) (n : Nat) : ParsingContext :=
  { p with OnlyApplyThisNodeNextLevel := some n, OnlyApplied := false }

/-- GetNextNodes: returns the active handler list for one dispatch step,
the context after the call (the consuming branch sets `OnlyApplied`), and
the effect of the returned `clearFn` closure. -/
def ParsingContext.GetNextNodes (p : ParsingContext) (n : List Nat) :
    List Nat × ParsingContext × (ParsingContext → ParsingContext) :=
  match p.OnlyApplyThisNodeNextLevel with
  | none => (n, p, fun q => q)
  | some nid =>
    if p.OnlyApplied then (n, p, fun q => q)
    else ([nid], { p with OnlyApplied := true }, fun q => { q with OnlyApplied := false })

def ParsingContext.ResetOnlyAppliedThisNodeNextLevel (p : ParsingContext) : ParsingContext :=
  { p with OnlyApplyThisNodeNextLevel := none, OnlyApplied := false }

/-- Push: prepend Current to the stack and clear Current. -/
def ParsingContext.Push (p : ParsingContext) : ParsingContext :=
  { p with Stack := p.Current :: p.Stack, Current := .null }

/-- Pop: Go reads `p.Stack[0]` unconditionally, an out-of-bounds panic when
the stack is empty; that undefined outcome is `none` here.  On a non-empty
stack the front is installed as Current and, when it implements
`nameGetter`, the cached Name is refreshed from it. -/
def ParsingContext.Pop (p : ParsingContext) : Option ParsingContext :=
  match p.Stack with
  | [] => none
  | e :: rest =>
    some { p with Current := e, Stack := rest,
                  Name := match e.getName? with
                          | some n => n
                          | none => p.Name }

def ParsingContext.IsReset (p : ParsingContext) : Bool :=
  p.Current matches .null && p.Name = ""

def ParsingContext.Reset (p : ParsingContext) : ParsingContext :=
  { p with Current := .null, Name := "" }

/-- RDFNode: the handler interface.  Each operation returns the Go
`(bool, error)` pair together with the context as mutated by the call. -/
structure RDFNode where
  Enter : String → ParsingContext → (Bool × Option Err) × ParsingContext
  Exit : String → ParsingContext → (Bool × Option Err) × ParsingContext
  Apply : String → Value → ParsingContext → (Bool × Option Err) × ParsingContext

/-- The registry collaborator (`RDFRegistry`), defined outside these two
source files; only the contract the core needs is modelled: each resolution
method yields an ordered handler list or an error. -/
structure RDFRegistry where
  getFor : String → Except Err (List Nat)
  getAliased : String → String → Except Err (List Nat)
  getAliasedObject : String → List (String × Value) → Except Err (List Nat)

def JSON_LD_CONTEXT : String := "@context"

def JSON_LD_TYPE : String := "@type"

def JSON_LD_TYPE_AS : String := "type"

/-- enterFirstNode: try handlers in order; the first that reports handled
returns its error; an error with not-handled also returns; exhaustion is the
"no RDFNode applicable for entering" failure. -/
def enterFirstNode (env : Nat → RDFNode) :
    List Nat → String → ParsingContext → Option Err × ParsingContext
  | [], key, ctx => (some (.noNodeEnter key), ctx)
  | n :: rest, key, ctx =>
    match (env n).Enter key ctx with
    | ((true, e), c) => (e, c)
    | ((false, some e), c) => (some e, c)
    | ((false, none), c) => enterFirstNode env rest key c

/-- exitFirstNode, same shape as enterFirstNode. -/
def exitFirstNode (env : Nat → RDFNode) :
    List Nat → String → ParsingContext → Option Err × ParsingContext
  | [], key, ctx => (some (.noNodeExit key), ctx)
  | n :: rest, key, ctx =>
    match (env n).Exit key ctx with
    | ((true, e), c) => (e, c)
    | ((false, some e), c) => (some e, c)
    | ((false, none), c) => exitFirstNode env rest key c

/-- applyFirstNode; its exhaustion failure also carries the value. -/
def applyFirstNode (env : Nat → RDFNode) :
    List Nat → String → Value → ParsingContext → Option Err × ParsingContext
  | [], key, v, ctx => (some (.noNodeApply key v), ctx)
  | n :: rest, key, v, ctx =>
    match (env n).Apply key v ctx with
    | ((true, e), c) => (e, c)
    | ((false, some e), c) => (some e, c)
    | ((false, none), c) => applyFirstNode env rest key v c

mutual

/-- apply from the traversal file: one object level.  Whole-document
override first; then the `@type`/`type` pre-pass; then every other key
except `@context`, `@type`, `type` in iteration order (`doApplyKeys`). -/
def apply (env : Nat → RDFNode) (nodes : List Nat) (input : List (String × Value))
    (ctx : ParsingContext) : Option Err × ParsingContext :=
  match ctx.OnlyApplyThisNode with
  | some nid =>
    match (env nid).Apply "" (.obj input) ctx with
    | ((false, _), c) => (some .applyRequestedNodeFailed, c)
    | ((true, e), c) => (e, c)
  | none =>
    match hty : lookupKey JSON_LD_TYPE input with
    | some v =>
      match doApply env nodes JSON_LD_TYPE v ctx with
      | (some e, c) => (some e, c)
      | (none, c) => doApplyKeys env nodes input c
    | none =>
      match hty2 : lookupKey JSON_LD_TYPE_AS input with
      | some v =>
        match doApply env nodes JSON_LD_TYPE_AS v ctx with
        | (some e, c) => (some e, c)
        | (none, c) => doApplyKeys env nodes input c
      | none => doApplyKeys env nodes input ctx
termination_by (sizeOf input, 1)
decreasing_by
· have := lookupKey_sizeOf hty
  simp_wf
  exact Prod.Lex.left _ _ (by omega)
· simp_wf
  exact Prod.Lex.right _ (by omega)
· have := lookupKey_sizeOf hty2
  simp_wf
  exact Prod.Lex.left _ _ (by omega)
· simp_wf
  exact Prod.Lex.right _ (by omega)
· simp_wf
  exact Prod.Lex.right _ (by omega)

/-- The remaining-keys loop of apply (`for k, v := range input` with the
three `continue` cases). -/
def doApplyKeys (env : Nat → RDFNode) (nodes : List Nat)
    (pairs : List (String × Value)) (ctx : ParsingContext) : Option Err × ParsingContext :=
  match pairs with
  | [] => (none, ctx)
  | (k, v) :: rest =>
    if k = JSON_LD_CONTEXT then doApplyKeys env nodes rest ctx
    else if k = JSON_LD_TYPE then doApplyKeys env nodes rest ctx
    else if k = JSON_LD_TYPE_AS then doApplyKeys env nodes rest ctx
    else
      match doApply env nodes k v ctx with
      | (some e, c) => (some e, c)
      | (none, c) => doApplyKeys env nodes rest c
termination_by (sizeOf pairs, 0)
decreasing_by
all_goals simp_wf
all_goals first
| exact Prod.Lex.left _ _ (by omega)
| exact Prod.Lex.right _ (by omega)

/-- doApply: one key/value dispatch.  `GetNextNodes` picks the active
enter/apply/exit handler list (and its clearFn runs on every return path,
modelling the Go `defer`); recursion into nested objects always uses the
full list `recurNodes`. -/
def doApply (env : Nat → RDFNode) (nodes : List Nat) (k : String) (v : Value)
    (ctx : ParsingContext) : Option Err × ParsingContext :=
  let recurNodes := nodes
  match ctx.GetNextNodes nodes with
  | (enterApplyExitNodes, ctx1, clearFn) =>
    match v with
    | .obj fields =>
      match enterFirstNode env enterApplyExitNodes k ctx1 with
      | (some e, c) => (some e, clearFn c)
      | (none, c) =>
        match apply env recurNodes fields c with
        | (some e, c') => (some e, clearFn c')
        | (none, c') =>
          match exitFirstNode env enterApplyExitNodes k c' with
          | (r, c'') => (r, clearFn c'')
    | .arr elems =>
      match doApplyArr env recurNodes enterApplyExitNodes k elems ctx1 with
      | (r, c) => (r, clearFn c)
    | _ =>
      match applyFirstNode env enterApplyExitNodes k v ctx1 with
      | (r, c) => (r, clearFn c)
termination_by (sizeOf v, 0)
decreasing_by
all_goals simp_wf
all_goals exact Prod.Lex.left _ _ (by omega)

/-- The element loop of doApply's sequence branch: enter, then recurse
(object element) or apply directly (any other element), then exit — once
per element. -/
def doApplyArr (env : Nat → RDFNode) (recurNodes enterApplyExitNodes : List Nat)
    (k : String) (elems : List Value) (ctx : ParsingContext) : Option Err × ParsingContext :=
  match elems with
  | [] => (none, ctx)
  | val :: rest =>
    match enterFirstNode env enterApplyExitNodes k ctx with
    | (some e, c) => (some e, c)
    | (none, c) =>
      match doApplyArrElem env recurNodes enterApplyExitNodes k val c with
      | (some e, c') => (some e, c')
      | (none, c') =>
        match exitFirstNode env enterApplyExitNodes k c' with
        | (some e, c'') => (some e, c'')
        | (none, c'') => doApplyArr env recurNodes enterApplyExitNodes k rest c''
termination_by (sizeOf elems, 0)
decreasing_by
all_goals simp_wf
all_goals first
| exact Prod.Lex.left _ _ (by omega)
| exact Prod.Lex.right _ (by omega)

/-- The body of the element loop's shape test: recurse into an object
element with the full list, apply any other element directly. -/
def doApplyArrElem (env : Nat → RDFNode) (recurNodes enterApplyExitNodes : List Nat)
    (k : String) (val : Value) (ctx : ParsingContext) : Option Err × ParsingContext :=
  match val with
  | .obj fields => apply env recurNodes fields ctx
  | _ => applyFirstNode env enterApplyExitNodes k val ctx
termination_by (sizeOf val, 0)
decreasing_by
simp_wf
exact Prod.Lex.left _ _ (by omega)

end

/-- The alias/value loop shared by the two dictionary cases of
parseJSONLDContext (`@context` a dictionary, or a dictionary inside the
`@context` array); the two sites differ only in the error for a value that
is neither string nor dictionary, passed in as `dictErr`. -/
def parseContextDictEntries (registry : RDFRegistry) (dictErr : Err) :
    List (String × Value) → Except Err (List Nat)
  | [] => .ok []
  | (aliasName, val) :: rest =>
    match val with
    | .str s =>
      match registry.getAliased aliasName s with
      | .error e => .error e
      | .ok n =>
        match parseContextDictEntries registry dictErr rest with
        | .error e => .error e
        | .ok m => .ok (n ++ m)
    | .obj aliasedMap =>
      match registry.getAliasedObject aliasName aliasedMap with
      | .error e => .error e
      | .ok n =>
        match parseContextDictEntries registry dictErr rest with
        | .error e => .error e
        | .ok m => .ok (n ++ m)
    | _ => .error dictErr

/-- The element loop of parseJSONLDContext's array case: resolve each
element independently and concatenate the handler lists in element order. -/
def parseContextArray (registry : RDFRegistry) :
    List Value → Except Err (List Nat)
  | [] => .ok []
  | iVal :: rest =>
    match iVal with
    | .obj valMap =>
      match parseContextDictEntries registry .malformedContextDictInArray valMap with
      | .error e => .error e
      | .ok n =>
        match parseContextArray registry rest with
        | .error e => .error e
        | .ok m => .ok (n ++ m)
    | .str s =>
      match registry.getFor s with
      | .error e => .error e
      | .ok n =>
        match parseContextArray registry rest with
        | .error e => .error e
        | .ok m => .ok (n ++ m)
    | _ => .error .malformedContextArray

/-- parseJSONLDContext.  In the Go source the final single-value branch
assigns the "single @context value is not a string" error when the value is
not a string, but then unconditionally executes `return registry.getFor(s)`,
overwriting both named return values — so that error (`Err.malformedContextSingle`)
is discarded and the registry is consulted with `s` left at its zero value
`""`.  The transcription reproduces that behaviour. -/
def parseJSONLDContext (registry : RDFRegistry) (input : List (String × Value)) :
    Except Err (List Nat) :=
  match lookupKey JSON_LD_CONTEXT input with
  | none => .error .noContext
  | some i =>
    match i with
    | .arr inArray => parseContextArray registry inArray
    | .obj inMap => parseContextDictEntries registry .malformedContextDict inMap
    | .str s => registry.getFor s
    | _ => registry.getFor ""

/-- The zero-value ParsingContext built by ParseVocabulary
(`&ParsingContext{Result: vocabulary}`). -/
def initialParsingContext : ParsingContext := {}

/-- ParseVocabulary.  `jsonLDNodes registry` is a function of the package
that is outside the two source files under verification; its result (the
built-in JSON-LD structural handler list) is taken here as the parameter
`jsonLDNodes`.  Go returns the named pair `(vocabulary, err)`: nil until
context resolution succeeds, afterwards the ParsedVocabulary that the
traversal mutated through `ctx.Result` — even when `apply` failed. -/
def ParseVocabulary (env : Nat → RDFNode) (registry : RDFRegistry)
    (jsonLDNodes : List Nat) (input : List (String × Value)) :
    Option ParsedVocabulary × Option Err :=
  match parseJSONLDContext registry input with
  | .error e => (none, some e)
  | .ok ns =>
    let nodes := jsonLDNodes ++ ns
    match apply env nodes input initialParsingContext with
    | (err, ctx) => (some ctx.Result, err)

/-! Instrumentation used by the theorems: handlers that record every call
they handle into the `Entity.payload` event list held in `Current` (in Go a
handler may store any value in the `interface{}`-typed `Current` and is free
to mutate it on every call; the traversal engine itself never touches
`Current`). -/

/-- Event list carried by a payload entity (empty for any other entity). -/
def Entity.events : Entity → List TraceEvent
  | .payload es => es
  | _ => []

/-- Append one event to the payload in `Current`. -/
def recordEvent (e : TraceEvent) (ctx : ParsingContext) : ParsingContext :=
  { ctx with Current := .payload (ctx.Current.events ++ [e]) }

/-- A handler that claims every key and records each call. -/
def traceNode (id : Nat) : RDFNode where
  Enter := fun k ctx => ((true, none), recordEvent (.enter id k) ctx)
  Exit := fun k ctx => ((true, none), recordEvent (.exit id k) ctx)
  Apply := fun k v ctx => ((true, none), recordEvent (.apply id k v) ctx)

/-- The environment in which every handler id is a recording handler. -/
def envTrace : Nat → RDFNode := fun id => traceNode id

/-- A context whose Current carries an empty event payload and whose other
fields are at their zero values. -/
def ctxTrace : ParsingContext := { Current := .payload [] }

/-- Append a batch of events to the payload in Current (the effect of a run
of recording-handler calls). -/
def addEvents (es : List TraceEvent) (ctx : ParsingContext) : ParsingContext :=
  { ctx with Current := .payload (ctx.Current.events ++ es) }

/-- Scalar means neither a JSON object nor a JSON array: the traversal's
final `else` branch (direct apply) handles exactly these values. -/
def Value.isScalar : Value → Bool
  | .obj _ => false
  | .arr _ => false
  | _ => true

/-- The key named by a trace event. -/
def eventKey : TraceEvent → String
  | .enter _ k => k
  | .exit _ k => k
  | .apply _ k _ => k

def isEnterEvent : TraceEvent → Bool
  | .enter _ _ => true
  | _ => false

def isExitEvent : TraceEvent → Bool
  | .exit _ _ => true
  | _ => false

/-- The events handler 0 records during the remaining-keys pass over a level
whose values are all scalar: one apply per key, in iteration order, skipping
`@context`, `@type` and `type`. -/
def keysEvents : List (String × Value) → List TraceEvent
  | [] => []
  | (k, v) :: rest =>
    if k = JSON_LD_CONTEXT then keysEvents rest
    else if k = JSON_LD_TYPE then keysEvents rest
    else if k = JSON_LD_TYPE_AS then keysEvents rest
    else .apply 0 k v :: keysEvents rest

/-- The events handler 0 records for a sequence of scalar elements under key
`k`: enter, apply, exit — once per element. -/
def bracketEvents (k : String) : List Value → List TraceEvent
  | [] => []
  | e :: rest => .enter 0 k :: .apply 0 k e :: .exit 0 k :: bracketEvents k rest

/-- The events handler 0 records for a sequence of `n` empty-object
elements under key `k`: enter and exit bracket each element's recursion. -/
def bracketObjEvents (k : String) : Nat → List TraceEvent
  | 0 => []
  | n + 1 => .enter 0 k :: .exit 0 k :: bracketObjEvents k n

/-- A recording handler that additionally arms the next-level-only override
towards handler `target` when it enters the key `onKey`. -/
def overridingNode (id target : Nat) (onKey : String) : RDFNode where
  Enter := fun k ctx =>
    let c := recordEvent (.enter id k) ctx
    ((true, none), if k = onKey then c.SetOnlyApplyThisNodeNextLevel target else c)
  Exit := fun k ctx => ((true, none), recordEvent (.exit id k) ctx)
  Apply := fun k v ctx => ((true, none), recordEvent (.apply id k v) ctx)

/-- Environment for the next-level-override scenario: handler 3 is the
armer, every other id records plainly. -/
def envC3 : Nat → RDFNode := fun id => if id = 3 then overridingNode 3 7 "x" else traceNode id

/-- A document level whose key `x` holds an object with a nested-object
child `a` (containing `c`) and a scalar sibling `b`. -/
def inputC3 : Value := .obj [("a", .obj [("c", .str "s")]), ("b", .str "t")]

/-- A handler that claims only the key `a`, inserting vocabulary type `A`
into the result on apply; every other call is declined without error. -/
def typeInsertingNode : RDFNode where
  Enter := fun _ ctx => ((false, none), ctx)
  Exit := fun _ ctx => ((false, none), ctx)
  Apply := fun k _ ctx =>
    if k = "a" then
      match ctx.Result.Vocab.SetType "A" { Name := "A" } with
      | (none, voc) => ((true, none), { ctx with Result := { ctx.Result with Vocab := voc } })
      | (some e, _) => ((true, some e), ctx)
    else ((false, none), ctx)

def envC1 : Nat → RDFNode := fun _ => typeInsertingNode

/-- A registry that resolves only the ontology name `c`, to the empty
handler list. -/
def regC1 : RDFRegistry where
  getFor := fun s => if s = "c" then .ok [] else .error (.registryUnknown s)
  getAliased := fun a _ => .error (.registryUnknown a)
  getAliasedObject := fun a _ => .error (.registryUnknown a)

/-- A document whose key `a` is claimed by `typeInsertingNode` and whose key
`z` is claimed by no handler. -/
def inputC1 : List (String × Value) := [("@context", .str "c"), ("a", .str "x"), ("z", .str "y")]

/-- A registry that knows the empty ontology name (resolving it to handler
42) and no other. -/
def regC2 : RDFRegistry where
  getFor := fun s => if s = "" then .ok [42] else .error (.registryUnknown s)
  getAliased := fun a _ => .error (.registryUnknown a)
  getAliasedObject := fun a _ => .error (.registryUnknown a)

/-- A registry that resolves no name at all. -/
def regC2err : RDFRegistry where
  getFor := fun s => .error (.registryUnknown s)
  getAliased := fun a _ => .error (.registryUnknown a)
  getAliasedObject := fun a _ => .error (.registryUnknown a)

/-- An environment whose every handler declines enter/exit and fails apply
with its own (opaque) error while reporting not-handled. -/
def envC8 : Nat → RDFNode := fun _ => {
  Enter := fun _ ctx => ((false, none), ctx)
  Exit := fun _ ctx => ((false, none), ctx)
  Apply := fun _ _ ctx => ((false, some (.handlerErr 42)), ctx) }

/-- An environment whose every handler claims every apply call without
mutating anything. -/
def envAccept : Nat → RDFNode := fun _ => {
  Enter := fun _ ctx => ((true, none), ctx)
  Exit := fun _ ctx => ((true, none), ctx)
  Apply := fun _ _ ctx => ((true, none), ctx) }

/-- A context whose whole-document override points at handler 9. -/
def ctxC8 : ParsingContext := { OnlyApplyThisNode := some 9 }

/-- A registry for the resolution-order scenario: ontology `A` resolves to
handler 1, ontology `B` to handler 2. -/
def regC9 : RDFRegistry where
  getFor := fun s =>
    if s = "A" then .ok [1] else if s = "B" then .ok [2] else .error (.registryUnknown s)
  getAliased := fun a _ => .error (.registryUnknown a)
  getAliasedObject := fun a _ => .error (.registryUnknown a)

def inputC9 : List (String × Value) :=
  [("@context", .arr [.str "A", .str "B"]), ("n", .str "N")]

/-- The partially populated result of the C1 scenario: the type `A`
inserted by `typeInsertingNode` before the traversal failure. -/
def pvC1 : ParsedVocabulary := { Vocab := { Types := [("A", { Name := "A" })] } }

/-- Parsing context holding `pvC1` (all other fields at zero values). -/
def cC1 : ParsingContext := { Result := pvC1 }

/-- Intermediate contexts of the next-level-override scenario, named by the
events recorded so far; the override slot stays armed towards handler 7
throughout, and `OnlyApplied` reflects whether a consuming dispatch step is
in progress. -/
def cxA : ParsingContext :=
  { Current := .payload [.enter 3 "x"], OnlyApplyThisNodeNextLevel := some 7 }

def cxAc : ParsingContext :=
  { Current := .payload [.enter 3 "x"], OnlyApplyThisNodeNextLevel := some 7,
    OnlyApplied := true }

def cxB : ParsingContext :=
  { Current := .payload [.enter 3 "x", .enter 7 "a"],
    OnlyApplyThisNodeNextLevel := some 7, OnlyApplied := true }

def cxC : ParsingContext :=
  { Current := .payload [.enter 3 "x", .enter 7 "a", .apply 3 "c" (.str "s")],
    OnlyApplyThisNodeNextLevel := some 7, OnlyApplied := true }

def cxD : ParsingContext :=
  { Current := .payload [.enter 3 "x", .enter 7 "a", .apply 3 "c" (.str "s"),
                         .exit 7 "a"],
    OnlyApplyThisNodeNextLevel := some 7 }

def cxDc : ParsingContext :=
  { Current := .payload [.enter 3 "x", .enter 7 "a", .apply 3 "c" (.str "s"),
                         .exit 7 "a"],
    OnlyApplyThisNodeNextLevel := some 7, OnlyApplied := true }

def cxE : ParsingContext :=
  { Current := .payload [.enter 3 "x", .enter 7 "a", .apply 3 "c" (.str "s"),
                         .exit 7 "a", .apply 7 "b" (.str "t")],
    OnlyApplyThisNodeNextLevel := some 7 }

def cxEc : ParsingContext :=
  { Current := .payload [.enter 3 "x", .enter 7 "a", .apply 3 "c" (.str "s"),
                         .exit 7 "a", .apply 7 "b" (.str "t")],
    OnlyApplyThisNodeNextLevel := some 7, OnlyApplied := true }

def cxF : ParsingContext :=
  { Current := .payload [.enter 3 "x", .enter 7 "a", .apply 3 "c" (.str "s"),
                         .exit 7 "a", .apply 7 "b" (.str "t"), .exit 3 "x"],
    OnlyApplyThisNodeNextLevel := some 7 }

theorem lookupKey_append_none {β : Type} {k : String} {l : List (String × β)} (x : β)
    (h : lookupKey k l = none) : lookupKey k (l ++ [(k, x)]) = some x := by
  induction l with
  | nil => simp [lookupKey]
  | cons p rest ih =>
    obtain ⟨k', v'⟩ := p
    simp only [List.cons_append, lookupKey] at h ⊢
    split at h
    · cases h
    · rw [if_neg (by assumption)]
      exact ih h

/-- C7: for each of the three entity kinds, inserting under a name already
present in its mapping returns the duplicate-name error and returns the
vocabulary unchanged; inserting under a fresh name succeeds and adds exactly
that entry (the new name maps to the inserted entity and the mapping grows
by one). -/
theorem C7_insert_unique_names (v : Vocabulary) (name : String)
    (t : VocabularyType) (p : VocabularyProperty) (w : VocabularyValue) :
    ((lookupKey name v.Types).isSome →
      v.SetType name t = (some (.duplicateTypeName name), v)) ∧
    (lookupKey name v.Types = none →
      v.SetType name t = (none, { v with Types := v.Types ++ [(name, t)] }) ∧
      lookupKey name (v.SetType name t).2.Types = some t ∧
      (v.SetType name t).2.Types.length = v.Types.length + 1) ∧
    ((lookupKey name v.Properties).isSome →
      v.SetProperty name p = (some .duplicatePropertyName, v)) ∧
    (lookupKey name v.Properties = none →
      v.SetProperty name p = (none, { v with Properties := v.Properties ++ [(name, p)] }) ∧
      lookupKey name (v.SetProperty name p).2.Properties = some p ∧
      (v.SetProperty name p).2.Properties.length = v.Properties.length + 1) ∧
    ((lookupKey name v.Values).isSome →
      v.SetValue name w = (some .duplicateValueName, v)) ∧
    (lookupKey name v.Values = none →
      v.SetValue name w = (none, { v with Values := v.Values ++ [(name, w)] }) ∧
      lookupKey name (v.SetValue name w).2.Values = some w ∧
      (v.SetValue name w).2.Values.length = v.Values.length + 1) := by
  refine ⟨?_, ?_, ?_, ?_, ?_, ?_⟩
  · intro h
    unfold Vocabulary.SetType
    rcases hl : lookupKey name v.Types with _ | x
    · rw [hl] at h
      cases h
    · rfl
  · intro h
    unfold Vocabulary.SetType
    rw [h]
    exact ⟨rfl, lookupKey_append_none t h, by simp⟩
  · intro h
    unfold Vocabulary.SetProperty
    rcases hl : lookupKey name v.Properties with _ | x
    · rw [hl] at h
      cases h
    · rfl
  · intro h
    unfold Vocabulary.SetProperty
    rw [h]
    exact ⟨rfl, lookupKey_append_none p h, by simp⟩
  · intro h
    unfold Vocabulary.SetValue
    rcases hl : lookupKey name v.Values with _ | x
    · rw [hl] at h
      cases h
    · rfl
  · intro h
    unfold Vocabulary.SetValue
    rw [h]
    exact ⟨rfl, lookupKey_append_none w h, by simp⟩

/-- C7 witness: inserting the type name `A` into an empty vocabulary
succeeds, and re-inserting it into the result fails with the duplicate
error while leaving the mapping unchanged. -/
theorem C7_insert_unique_names_witness :
    ({} : Vocabulary).SetType "A" { Name := "A" } =
      (none, { Types := [("A", { Name := "A" })] }) ∧
    ({ Types := [("A", { Name := "A" })] } : Vocabulary).SetType "A" { Name := "B" } =
      (some (.duplicateTypeName "A"), { Types := [("A", { Name := "A" })] }) := by
  constructor
  · exact ((C7_insert_unique_names {} "A" { Name := "A" } {} {}).2.1 rfl).1
  · exact (C7_insert_unique_names { Types := [("A", { Name := "A" })] } "A"
      { Name := "B" } {} {}).1 (by simp [lookupKey])

/-- C10: Pop on an empty stack reads past the front (a Go panic, modelled as
the absent result — neither a no-op nor an error return); on any context,
Pop after Push restores the previous Current and Stack, refreshing the
cached Name exactly when the restored entity implements the name-readable
capability and keeping the old Name otherwise. -/
theorem C10_pop_precondition (p : ParsingContext) :
    (p.Stack = [] → p.Pop = none) ∧
    (∃ q, p.Push.Pop = some q ∧ q.Current = p.Current ∧ q.Stack = p.Stack ∧
      q.Result = p.Result ∧
      (∀ n, p.Current.getName? = some n → q.Name = n) ∧
      (p.Current.getName? = none → q.Name = p.Name)) := by
  constructor
  · intro h
    simp [ParsingContext.Pop, h]
  · refine ⟨_, rfl, rfl, rfl, rfl, ?_, ?_⟩
    · intro n hn
      simp [ParsingContext.Push, hn]
    · intro hn
      simp [ParsingContext.Push, hn]

/-- C10 witness: popping an empty-stack context is absent; Push then Pop
around a named type entity restores it and refreshes Name, while Push then
Pop around nil keeps the previously cached Name. -/
theorem C10_pop_precondition_witness :
    (({ Stack := [] } : ParsingContext).Pop = none) ∧
    (∃ q, ({ Current := .vType { Name := "T" }, Name := "old" } : ParsingContext).Push.Pop = some q ∧
      q.Current = .vType { Name := "T" } ∧ q.Name = "T") ∧
    (∃ q, ({ Current := .null, Name := "old" } : ParsingContext).Push.Pop = some q ∧
      q.Name = "old") := by
  refine ⟨(C10_pop_precondition {}).1 rfl, ?_, ?_⟩
  · obtain ⟨q, hq, hc, _, _, hn, _⟩ :=
      (C10_pop_precondition { Current := .vType { Name := "T" }, Name := "old" }).2
    exact ⟨q, hq, hc, hn "T" rfl⟩
  · obtain ⟨q, hq, _, _, _, _, hn⟩ :=
      (C10_pop_precondition { Current := .null, Name := "old" }).2
    exact ⟨q, hq, hn rfl⟩

/-- C6: for each of enterFirstNode, exitFirstNode and applyFirstNode —
handlers are tried in list order; the first handler reporting handled stops
the search and its error (nil or not) is the result; a handler error with
not-handled also returns immediately; a not-handled, no-error handler passes
control to the rest of the list; and when every handler declines without
error the dispatch fails with the no-RDFNode-applicable error naming the key
(and, for apply, the value). -/
theorem C6_first_match_dispatch (env : Nat → RDFNode) (key : String) (v : Value)
    (ctx : ParsingContext) (n : Nat) (rest : List Nat) :
    ((∀ e c, (env n).Enter key ctx = ((true, e), c) →
        enterFirstNode env (n :: rest) key ctx = (e, c)) ∧
      (∀ e c, (env n).Enter key ctx = ((false, some e), c) →
        enterFirstNode env (n :: rest) key ctx = (some e, c)) ∧
      (∀ c, (env n).Enter key ctx = ((false, none), c) →
        enterFirstNode env (n :: rest) key ctx = enterFirstNode env rest key c) ∧
      (∀ nodes : List Nat, (∀ m ∈ nodes, ∀ c, ((env m).Enter key c).1 = (false, none)) →
        (enterFirstNode env nodes key ctx).1 = some (.noNodeEnter key))) ∧
    ((∀ e c, (env n).Exit key ctx = ((true, e), c) →
        exitFirstNode env (n :: rest) key ctx = (e, c)) ∧
      (∀ e c, (env n).Exit key ctx = ((false, some e), c) →
        exitFirstNode env (n :: rest) key ctx = (some e, c)) ∧
      (∀ c, (env n).Exit key ctx = ((false, none), c) →
        exitFirstNode env (n :: rest) key ctx = exitFirstNode env rest key c) ∧
      (∀ nodes : List Nat, (∀ m ∈ nodes, ∀ c, ((env m).Exit key c).1 = (false, none)) →
        (exitFirstNode env nodes key ctx).1 = some (.noNodeExit key))) ∧
    ((∀ e c, (env n).Apply key v ctx = ((true, e), c) →
        applyFirstNode env (n :: rest) key v ctx = (e, c)) ∧
      (∀ e c, (env n).Apply key v ctx = ((false, some e), c) →
        applyFirstNode env (n :: rest) key v ctx = (some e, c)) ∧
      (∀ c, (env n).Apply key v ctx = ((false, none), c) →
        applyFirstNode env (n :: rest) key v ctx = applyFirstNode env rest key v c) ∧
      (∀ nodes : List Nat, (∀ m ∈ nodes, ∀ c, ((env m).Apply key v c).1 = (false, none)) →
        (applyFirstNode env nodes key v ctx).1 = some (.noNodeApply key v))) := by
  refine ⟨⟨?_, ?_, ?_, ?_⟩, ⟨?_, ?_, ?_, ?_⟩, ⟨?_, ?_, ?_, ?_⟩⟩
  · intro e c h
    simp [enterFirstNode, h]
  · intro e c h
    simp [enterFirstNode, h]
  · intro c h
    simp [enterFirstNode, h]
  · intro nodes h
    induction nodes generalizing ctx with
    | nil => simp [enterFirstNode]
    | cons m ms ih =>
      rcases hm : (env m).Enter key ctx with ⟨⟨b, e⟩, c⟩
      have hbe := h m (by simp) ctx
      rw [hm] at hbe
      cases hbe
      rw [enterFirstNode, hm]
      exact ih c (fun m' hm' => h m' (List.mem_cons_of_mem _ hm'))
  · intro e c h
    simp [exitFirstNode, h]
  · intro e c h
    simp [exitFirstNode, h]
  · intro c h
    simp [exitFirstNode, h]
  · intro nodes h
    induction nodes generalizing ctx with
    | nil => simp [exitFirstNode]
    | cons m ms ih =>
      rcases hm : (env m).Exit key ctx with ⟨⟨b, e⟩, c⟩
      have hbe := h m (by simp) ctx
      rw [hm] at hbe
      cases hbe
      rw [exitFirstNode, hm]
      exact ih c (fun m' hm' => h m' (List.mem_cons_of_mem _ hm'))
  · intro e c h
    simp [applyFirstNode, h]
  · intro e c h
    simp [applyFirstNode, h]
  · intro c h
    simp [applyFirstNode, h]
  · intro nodes h
    induction nodes generalizing ctx with
    | nil => simp [applyFirstNode]
    | cons m ms ih =>
      rcases hm : (env m).Apply key v ctx with ⟨⟨b, e⟩, c⟩
      have hbe := h m (by simp) ctx
      rw [hm] at hbe
      cases hbe
      rw [applyFirstNode, hm]
      exact ih c (fun m' hm' => h m' (List.mem_cons_of_mem _ hm'))

/-- C6 witness: with recording handlers, dispatching over the list [5]
yields handler 5's result; with universally declining handlers, apply
dispatch over [5, 6] fails naming the key and value. -/
theorem C6_first_match_dispatch_witness :
    enterFirstNode envTrace [5] "k" ctxTrace =
      (none, recordEvent (.enter 5 "k") ctxTrace) ∧
    (applyFirstNode (fun _ => {
        Enter := fun _ ctx => ((false, none), ctx)
        Exit := fun _ ctx => ((false, none), ctx)
        Apply := fun _ _ ctx => ((false, none), ctx) }) [5, 6] "k" (.str "w") ctxTrace).1 =
      some (.noNodeApply "k" (.str "w")) := by
  constructor
  · exact (C6_first_match_dispatch envTrace "k" (.str "w") ctxTrace 5 []).1.1 none
      (recordEvent (.enter 5 "k") ctxTrace) rfl
  · exact (C6_first_match_dispatch (fun _ => {
        Enter := fun _ ctx => ((false, none), ctx)
        Exit := fun _ ctx => ((false, none), ctx)
        Apply := fun _ _ ctx => ((false, none), ctx) }) "k" (.str "w") ctxTrace 5 []).2.2.2.2.2
      [5, 6] (fun m _ c => rfl)

/-- C2: evaluation of parseJSONLDContext at a `@context` that is a single
non-string scalar.  The spec (and the error value constructed in the source)
demand a malformed-context failure before any registry resolution, but the
`return registry.getFor(s)` that follows the error assignment discards the
error and consults the registry with the zero-value name "": with a registry
that resolves "" the parse of the context SUCCEEDS, and with one that does
not, the surfaced error is the registry's, not the malformed-context one. -/
theorem C2_scalar_context_reaches_registry :
    parseJSONLDContext regC2 [(JSON_LD_CONTEXT, .num 4)] = .ok [42] ∧
    parseJSONLDContext regC2err [(JSON_LD_CONTEXT, .boolean true)] =
      .error (.registryUnknown "") := by
  constructor
  · simp [parseJSONLDContext, lookupKey, regC2]
  · simp [parseJSONLDContext, lookupKey, regC2err]

/-- C8 counterexample: with the whole-document override set to a handler
whose Apply reports not-handled together with its own error, the traversal
returns the generic applying-requested-node-failed error — the failure the
handler returned is not propagated to the caller, refuting the claim's
"any failure returned by that handler is propagated" at this input. -/
theorem C8_counterexample :
    apply envC8 [0] [("a", .str "b")] ctxC8 = (some .applyRequestedNodeFailed, ctxC8) ∧
    some Err.applyRequestedNodeFailed ≠ some (Err.handlerErr 42) := by
  constructor
  · simp [apply, envC8, ctxC8]
  · simp

/-- C8 amended: with the whole-document override set, traversal performs
exactly the one Apply call on that handler with the empty key and the raw
remaining value — no type pre-pass, no recursive walking — and propagates
the handler's error when the handler reports handled; when the handler
reports not handled its own error (if any) is discarded and the generic
applying-requested-node-failed error is returned instead. -/
theorem C8_override_single_apply (env : Nat → RDFNode) (nodes : List Nat)
    (input : List (String × Value)) (ctx : ParsingContext) (nid : Nat)
    (h : ctx.OnlyApplyThisNode = some nid) :
    (∀ e c, (env nid).Apply "" (.obj input) ctx = ((true, e), c) →
      apply env nodes input ctx = (e, c)) ∧
    (∀ e c, (env nid).Apply "" (.obj input) ctx = ((false, e), c) →
      apply env nodes input ctx = (some .applyRequestedNodeFailed, c)) := by
  constructor
  · intro e c happly
    rw [apply, h]
    simp [happly]
  · intro e c happly
    rw [apply, h]
    simp [happly]

/-- C8 witness: a context with the override set to an always-accepting
handler makes apply return that single call's (nil) error and context. -/
theorem C8_override_single_apply_witness :
    apply envAccept [0] [("a", .str "b")] ctxC8 = (none, ctxC8) := by
  exact (C8_override_single_apply envAccept [0] [("a", .str "b")] ctxC8 9 rfl).1 none ctxC8 rfl

/-- C9: when `@context` is the sequence [A, B] and the registry resolves A
to `ra` and B to `rb`, the resolved handler list is `ra ++ rb` (A's handlers
precede B's); ParseVocabulary then runs the traversal with the built-in
JSON-LD structural handlers prepended ahead of them (`J ++ (ra ++ rb)`);
and a key claimed by the head of A's handlers is dispatched to it, ahead of
anything in `rb` (first-match ties go to A). -/
theorem C9_context_resolution_order (reg : RDFRegistry) (env : Nat → RDFNode)
    (J : List Nat) (A B : String) (ra rb : List Nat) (input : List (String × Value))
    (hA : reg.getFor A = .ok ra) (hB : reg.getFor B = .ok rb)
    (hctx : lookupKey JSON_LD_CONTEXT input = some (.arr [.str A, .str B])) :
    parseJSONLDContext reg input = .ok (ra ++ rb) ∧
    ParseVocabulary env reg J input =
      (some (apply env (J ++ (ra ++ rb)) input initialParsingContext).2.Result,
       (apply env (J ++ (ra ++ rb)) input initialParsingContext).1) ∧
    (∀ n tl key' v' ctx' e c, ra = n :: tl →
      (env n).Apply key' v' ctx' = ((true, e), c) →
      applyFirstNode env (ra ++ rb) key' v' ctx' = (e, c)) := by
  have hres : parseJSONLDContext reg input = .ok (ra ++ rb) := by
    simp [parseJSONLDContext, hctx, parseContextArray, hA, hB]
  refine ⟨hres, ?_, ?_⟩
  · rw [ParseVocabulary, hres]
  · intro n tl key' v' ctx' e c hra happly
    subst hra
    simp [applyFirstNode, happly]

/-- C9 witness: with the concrete registry mapping A to handler 1 and B to
handler 2, the resolved list is [1, 2], traversal runs with the built-in
handler 0 prepended, and a key handled by handler 1 resolves to it. -/
theorem C9_context_resolution_order_witness :
    parseJSONLDContext regC9 inputC9 = .ok [1, 2] ∧
    ParseVocabulary envTrace regC9 [0] inputC9 =
      (some (apply envTrace [0, 1, 2] inputC9 initialParsingContext).2.Result,
       (apply envTrace [0, 1, 2] inputC9 initialParsingContext).1) ∧
    applyFirstNode envTrace [1, 2] "n" (.str "N") ctxTrace =
      (none, recordEvent (.apply 1 "n" (.str "N")) ctxTrace) := by
  obtain ⟨h1, h2, h3⟩ := C9_context_resolution_order regC9 envTrace [0] "A" "B" [1] [2]
    inputC9 (by simp [regC9]) (by simp [regC9]) (by simp [lookupKey, inputC9, JSON_LD_CONTEXT])
  exact ⟨h1, h2, h3 1 [] "n" (.str "N") ctxTrace none
    (recordEvent (.apply 1 "n" (.str "N")) ctxTrace) rfl rfl⟩

theorem addEvents_nil {ctx : ParsingContext} {es : List TraceEvent}
    (hp : ctx.Current = .payload es) : addEvents [] ctx = ctx := by
  cases ctx
  simp_all [addEvents, Entity.events]

theorem addEvents_addEvents (es1 es2 : List TraceEvent) (ctx : ParsingContext) :
    addEvents es2 (addEvents es1 ctx) = addEvents (es1 ++ es2) ctx := by
  cases ctx
  simp [addEvents, Entity.events, List.append_assoc]

theorem addEvents_Current (es : List TraceEvent) (ctx : ParsingContext) :
    (addEvents es ctx).Current = .payload (ctx.Current.events ++ es) := rfl

theorem addEvents_NextLevel (es : List TraceEvent) (ctx : ParsingContext) :
    (addEvents es ctx).OnlyApplyThisNodeNextLevel = ctx.OnlyApplyThisNodeNextLevel := rfl

theorem addEvents_OnlyNode (es : List TraceEvent) (ctx : ParsingContext) :
    (addEvents es ctx).OnlyApplyThisNode = ctx.OnlyApplyThisNode := rfl

theorem enterFirstNode_trace (k : String) (ctx : ParsingContext) :
    enterFirstNode envTrace [0] k ctx = (none, addEvents [.enter 0 k] ctx) := rfl

theorem exitFirstNode_trace (k : String) (ctx : ParsingContext) :
    exitFirstNode envTrace [0] k ctx = (none, addEvents [.exit 0 k] ctx) := rfl

theorem applyFirstNode_trace (k : String) (v : Value) (ctx : ParsingContext) :
    applyFirstNode envTrace [0] k v ctx = (none, addEvents [.apply 0 k v] ctx) := rfl

theorem apply_eq_type (env : Nat → RDFNode) (nodes : List Nat)
    (input : List (String × Value)) (ctx : ParsingContext) (v : Value)
    (h0 : ctx.OnlyApplyThisNode = none) (hty : lookupKey JSON_LD_TYPE input = some v) :
    apply env nodes input ctx =
      (match doApply env nodes JSON_LD_TYPE v ctx with
       | (some e, c) => (some e, c)
       | (none, c) => doApplyKeys env nodes input c) := by
  rw [apply, h0]
  split
  · rename_i nid heq
    exact Option.noConfusion heq
  · split
    · rename_i v' heq
      rw [hty] at heq
      cases heq
      rfl
    · rename_i heq
      rw [hty] at heq
      exact Option.noConfusion heq

theorem apply_eq_typeAs (env : Nat → RDFNode) (nodes : List Nat)
    (input : List (String × Value)) (ctx : ParsingContext) (v : Value)
    (h0 : ctx.OnlyApplyThisNode = none) (hty : lookupKey JSON_LD_TYPE input = none)
    (htyAs : lookupKey JSON_LD_TYPE_AS input = some v) :
    apply env nodes input ctx =
      (match doApply env nodes JSON_LD_TYPE_AS v ctx with
       | (some e, c) => (some e, c)
       | (none, c) => doApplyKeys env nodes input c) := by
  rw [apply, h0]
  split
  · rename_i nid heq
    exact Option.noConfusion heq
  · split
    · rename_i v' heq
      rw [hty] at heq
      exact Option.noConfusion heq
    · split
      · rename_i v' heq
        rw [htyAs] at heq
        cases heq
        rfl
      · rename_i heq
        rw [htyAs] at heq
        exact Option.noConfusion heq

theorem apply_eq_noType (env : Nat → RDFNode) (nodes : List Nat)
    (input : List (String × Value)) (ctx : ParsingContext)
    (h0 : ctx.OnlyApplyThisNode = none) (hty : lookupKey JSON_LD_TYPE input = none)
    (htyAs : lookupKey JSON_LD_TYPE_AS input = none) :
    apply env nodes input ctx = doApplyKeys env nodes input ctx := by
  rw [apply, h0]
  split
  · rename_i nid heq
    exact Option.noConfusion heq
  · split
    · rename_i v' heq
      rw [hty] at heq
      exact Option.noConfusion heq
    · split
      · rename_i v' heq
        rw [htyAs] at heq
        exact Option.noConfusion heq
      · rfl

theorem ParseVocabulary_resolved {reg : RDFRegistry} {input : List (String × Value)}
    {ns : List Nat} (env : Nat → RDFNode) (J : List Nat)
    (h : parseJSONLDContext reg input = .ok ns) :
    ParseVocabulary env reg J input =
      (some (apply env (J ++ ns) input initialParsingContext).2.Result,
       (apply env (J ++ ns) input initialParsingContext).1) := by
  rw [ParseVocabulary, h]

theorem doApplyKeys_nil (env : Nat → RDFNode) (nodes : List Nat) (ctx : ParsingContext) :
    doApplyKeys env nodes [] ctx = (none, ctx) := by
  rw [doApplyKeys]

theorem doApplyKeys_skip {env : Nat → RDFNode} {nodes : List Nat} {k : String} {v : Value}
    {rest : List (String × Value)} {ctx : ParsingContext}
    (h : k = JSON_LD_CONTEXT ∨ k = JSON_LD_TYPE ∨ k = JSON_LD_TYPE_AS) :
    doApplyKeys env nodes ((k, v) :: rest) ctx = doApplyKeys env nodes rest ctx := by
  rw [doApplyKeys]
  rcases h with h | h | h <;> simp [h]

theorem doApplyKeys_step {env : Nat → RDFNode} {nodes : List Nat} {k : String} {v : Value}
    {rest : List (String × Value)} {ctx c : ParsingContext}
    (hk1 : ¬k = JSON_LD_CONTEXT) (hk2 : ¬k = JSON_LD_TYPE) (hk3 : ¬k = JSON_LD_TYPE_AS)
    (hd : doApply env nodes k v ctx = (none, c)) :
    doApplyKeys env nodes ((k, v) :: rest) ctx = doApplyKeys env nodes rest c := by
  rw [doApplyKeys]
  simp [hk1, hk2, hk3, hd]

theorem doApplyKeys_step_err {env : Nat → RDFNode} {nodes : List Nat} {k : String} {v : Value}
    {rest : List (String × Value)} {ctx c : ParsingContext} {e : Err}
    (hk1 : ¬k = JSON_LD_CONTEXT) (hk2 : ¬k = JSON_LD_TYPE) (hk3 : ¬k = JSON_LD_TYPE_AS)
    (hd : doApply env nodes k v ctx = (some e, c)) :
    doApplyKeys env nodes ((k, v) :: rest) ctx = (some e, c) := by
  rw [doApplyKeys]
  simp [hk1, hk2, hk3, hd]

theorem doApply_steps_obj {env : Nat → RDFNode} {nodes ean : List Nat} {k : String}
    {fields : List (String × Value)} {ctx ctx1 c1 c2 c3 c4 : ParsingContext}
    {clearFn : ParsingContext → ParsingContext} {r : Option Err}
    (hgn : ctx.GetNextNodes nodes = (ean, ctx1, clearFn))
    (hE : enterFirstNode env ean k ctx1 = (none, c1))
    (hI : apply env nodes fields c1 = (none, c2))
    (hX : exitFirstNode env ean k c2 = (r, c3))
    (hc : clearFn c3 = c4) :
    doApply env nodes k (.obj fields) ctx = (r, c4) := by
  rw [doApply]
  simp only [hgn, hE, hI, hX, hc]

theorem doApply_steps_scalar {env : Nat → RDFNode} {nodes ean : List Nat} {k : String}
    {v : Value} {ctx ctx1 c c' : ParsingContext}
    {clearFn : ParsingContext → ParsingContext} {r : Option Err}
    (hv : v.isScalar = true)
    (hgn : ctx.GetNextNodes nodes = (ean, ctx1, clearFn))
    (hA : applyFirstNode env ean k v ctx1 = (r, c))
    (hc : clearFn c = c') :
    doApply env nodes k v ctx = (r, c') := by
  rw [doApply]
  simp only [hgn]
  cases v <;> simp_all [Value.isScalar]

theorem doApply_scalar_trace (k : String) (v : Value) (ctx : ParsingContext)
    (hv : v.isScalar = true) (hnl : ctx.OnlyApplyThisNodeNextLevel = none) :
    doApply envTrace [0] k v ctx = (none, addEvents [.apply 0 k v] ctx) := by
  rw [doApply]
  simp only [ParsingContext.GetNextNodes, hnl]
  cases v <;> simp_all [Value.isScalar, applyFirstNode_trace]

theorem doApply_arr (env : Nat → RDFNode) (nodes : List Nat) (k : String)
    (elems : List Value) (ctx : ParsingContext)
    (hnl : ctx.OnlyApplyThisNodeNextLevel = none) :
    doApply env nodes k (.arr elems) ctx = doApplyArr env nodes nodes k elems ctx := by
  rw [doApply]
  simp only [ParsingContext.GetNextNodes, hnl]

theorem doApplyKeys_scalar_trace (fields : List (String × Value)) :
    ∀ (ctx : ParsingContext) (es : List TraceEvent), ctx.Current = .payload es →
      (∀ p ∈ fields, p.2.isScalar = true) → ctx.OnlyApplyThisNodeNextLevel = none →
      doApplyKeys envTrace [0] fields ctx = (none, addEvents (keysEvents fields) ctx) := by
  induction fields with
  | nil =>
    intro ctx es hp _ _
    rw [doApplyKeys, keysEvents, addEvents_nil hp]
  | cons p rest ih =>
    obtain ⟨k, v⟩ := p
    intro ctx es hp hs hnl
    rw [doApplyKeys, keysEvents]
    by_cases h1 : k = JSON_LD_CONTEXT
    · simp only [if_pos h1]
      exact ih ctx es hp (fun q hq => hs q (List.mem_cons_of_mem _ hq)) hnl
    · by_cases h2 : k = JSON_LD_TYPE
      · simp only [if_neg h1, if_pos h2]
        exact ih ctx es hp (fun q hq => hs q (List.mem_cons_of_mem _ hq)) hnl
      · by_cases h3 : k = JSON_LD_TYPE_AS
        · simp only [if_neg h1, if_neg h2, if_pos h3]
          exact ih ctx es hp (fun q hq => hs q (List.mem_cons_of_mem _ hq)) hnl
        · simp only [if_neg h1, if_neg h2, if_neg h3]
          rw [doApply_scalar_trace k v ctx (hs (k, v) (List.mem_cons_self _ _)) hnl]
          show doApplyKeys envTrace [0] rest (addEvents [TraceEvent.apply 0 k v] ctx) =
            (none, addEvents (TraceEvent.apply 0 k v :: keysEvents rest) ctx)
          rw [ih (addEvents [TraceEvent.apply 0 k v] ctx)
            (ctx.Current.events ++ [TraceEvent.apply 0 k v]) (addEvents_Current _ _)
            (fun q hq => hs q (List.mem_cons_of_mem _ hq))
            (by rw [addEvents_NextLevel]; exact hnl)]
          rw [addEvents_addEvents]
          rfl

theorem keysEvents_excluded (fields : List (String × Value)) :
    ∀ ev ∈ keysEvents fields,
      eventKey ev ≠ JSON_LD_CONTEXT ∧ eventKey ev ≠ JSON_LD_TYPE ∧
      eventKey ev ≠ JSON_LD_TYPE_AS := by
  induction fields with
  | nil => simp [keysEvents]
  | cons p rest ih =>
    obtain ⟨k, v⟩ := p
    rw [keysEvents]
    by_cases h1 : k = JSON_LD_CONTEXT
    · simpa [if_pos h1] using ih
    · by_cases h2 : k = JSON_LD_TYPE
      · simpa [if_neg h1, if_pos h2] using ih
      · by_cases h3 : k = JSON_LD_TYPE_AS
        · simpa [if_neg h1, if_neg h2, if_pos h3] using ih
        · intro ev hev
          rcases List.mem_cons.mp (by simpa [if_neg h1, if_neg h2, if_neg h3] using hev) with h | h
          · subst h
            exact ⟨h1, h2, h3⟩
          · exact ih ev h


/-- C4: over any object level whose values are scalars (any number of keys,
in any order), when the level has an `@type` key its dispatch event is the
first event of the traversal trace — before any other sibling key's event —
and the remaining-keys pass then dispatches exactly the other keys in
iteration order, excluding `@context`, `@type` and `type`; absent `@type`,
the same holds for a `type` key; and no event of the remaining-keys pass
ever names one of the three excluded keys. -/
theorem C4_type_prepass (fields : List (String × Value)) (v : Value)
    (hs : ∀ p ∈ fields, p.2.isScalar = true) :
    (lookupKey JSON_LD_TYPE fields = some v →
      apply envTrace [0] fields ctxTrace =
        (none, addEvents (.apply 0 JSON_LD_TYPE v :: keysEvents fields) ctxTrace)) ∧
    (lookupKey JSON_LD_TYPE fields = none →
      lookupKey JSON_LD_TYPE_AS fields = some v →
      apply envTrace [0] fields ctxTrace =
        (none, addEvents (.apply 0 JSON_LD_TYPE_AS v :: keysEvents fields) ctxTrace)) ∧
    (∀ ev ∈ keysEvents fields,
      eventKey ev ≠ JSON_LD_CONTEXT ∧ eventKey ev ≠ JSON_LD_TYPE ∧
      eventKey ev ≠ JSON_LD_TYPE_AS) := by
  refine ⟨?_, ?_, keysEvents_excluded fields⟩
  · intro hty
    have hv : v.isScalar = true := hs (JSON_LD_TYPE, v) (lookupKey_mem hty)
    rw [apply_eq_type envTrace [0] fields ctxTrace v rfl hty]
    rw [doApply_scalar_trace JSON_LD_TYPE v ctxTrace hv rfl]
    show doApplyKeys envTrace [0] fields
        (addEvents [TraceEvent.apply 0 JSON_LD_TYPE v] ctxTrace) = _
    rw [doApplyKeys_scalar_trace fields _ _ (addEvents_Current _ _) hs
      (by rw [addEvents_NextLevel]; rfl)]
    rw [addEvents_addEvents]
    rfl
  · intro hty htyAs
    have hv : v.isScalar = true := hs (JSON_LD_TYPE_AS, v) (lookupKey_mem htyAs)
    rw [apply_eq_typeAs envTrace [0] fields ctxTrace v rfl hty htyAs]
    rw [doApply_scalar_trace JSON_LD_TYPE_AS v ctxTrace hv rfl]
    show doApplyKeys envTrace [0] fields
        (addEvents [TraceEvent.apply 0 JSON_LD_TYPE_AS v] ctxTrace) = _
    rw [doApplyKeys_scalar_trace fields _ _ (addEvents_Current _ _) hs
      (by rw [addEvents_NextLevel]; rfl)]
    rw [addEvents_addEvents]
    rfl

/-- C4 witness: on a level listing `@type` after another key, the `@type`
dispatch event still comes first and the excluded keys are skipped. -/
theorem C4_type_prepass_witness :
    apply envTrace [0] [("n", .str "N"), ("@type", .str "T"), ("@context", .str "c")]
        ctxTrace =
      (none, addEvents [.apply 0 "@type" (.str "T"), .apply 0 "n" (.str "N")] ctxTrace) := by
  have h := (C4_type_prepass
    [("n", .str "N"), ("@type", .str "T"), ("@context", .str "c")] (.str "T")
    (by intro p hp; fin_cases hp <;> rfl)).1
    (by simp [lookupKey, JSON_LD_TYPE])
  simpa [keysEvents, JSON_LD_CONTEXT, JSON_LD_TYPE, JSON_LD_TYPE_AS] using h


theorem doApplyArr_scalar_trace (k : String) (elems : List Value) :
    ∀ (ctx : ParsingContext) (es : List TraceEvent), ctx.Current = .payload es →
      (∀ e ∈ elems, e.isScalar = true) →
      doApplyArr envTrace [0] [0] k elems ctx =
        (none, addEvents (bracketEvents k elems) ctx) := by
  induction elems with
  | nil =>
    intro ctx es hp _
    rw [doApplyArr, bracketEvents, addEvents_nil hp]
  | cons val rest ih =>
    intro ctx es hp hsc
    have hval : val.isScalar = true := hsc val (List.mem_cons_self _ _)
    have helem : doApplyArrElem envTrace [0] [0] k val
        (addEvents [TraceEvent.enter 0 k] ctx) =
        (none, addEvents [TraceEvent.enter 0 k, TraceEvent.apply 0 k val] ctx) := by
      cases val <;>
        simp_all [doApplyArrElem, applyFirstNode_trace, addEvents_addEvents, Value.isScalar]
    rw [doApplyArr]
    simp only [enterFirstNode_trace, helem, exitFirstNode_trace]
    simp only [addEvents_addEvents]
    rw [ih (addEvents ([TraceEvent.enter 0 k, TraceEvent.apply 0 k val] ++ [TraceEvent.exit 0 k]) ctx)
      (ctx.Current.events ++ ([TraceEvent.enter 0 k, TraceEvent.apply 0 k val] ++ [TraceEvent.exit 0 k]))
      (addEvents_Current _ _) (fun e he => hsc e (List.mem_cons_of_mem _ he))]
    rw [addEvents_addEvents, bracketEvents]
    simp [List.append_assoc]

theorem doApplyArr_objEmpty_trace (k : String) (n : Nat) :
    ∀ (ctx : ParsingContext) (es : List TraceEvent), ctx.Current = .payload es →
      ctx.OnlyApplyThisNode = none →
      doApplyArr envTrace [0] [0] k (List.replicate n (.obj [])) ctx =
        (none, addEvents (bracketObjEvents k n) ctx) := by
  induction n with
  | zero =>
    intro ctx es hp _
    rw [List.replicate_zero, doApplyArr, bracketObjEvents, addEvents_nil hp]
  | succ m ih =>
    intro ctx es hp h0
    have helem : doApplyArrElem envTrace [0] [0] k (.obj [])
        (addEvents [TraceEvent.enter 0 k] ctx) =
        (none, addEvents [TraceEvent.enter 0 k] ctx) := by
      rw [doApplyArrElem]
      rw [apply_eq_noType envTrace [0] [] _ (by rw [addEvents_OnlyNode]; exact h0) rfl rfl]
      rw [doApplyKeys]
    rw [List.replicate_succ, doApplyArr]
    simp only [enterFirstNode_trace, helem, exitFirstNode_trace]
    simp only [addEvents_addEvents]
    rw [ih (addEvents ([TraceEvent.enter 0 k] ++ [TraceEvent.exit 0 k]) ctx)
      (ctx.Current.events ++ ([TraceEvent.enter 0 k] ++ [TraceEvent.exit 0 k]))
      (addEvents_Current _ _) (by rw [addEvents_OnlyNode]; exact h0)]
    rw [addEvents_addEvents, bracketObjEvents]
    simp [List.append_assoc]

/-- C5: for a key whose value is a sequence, enter and exit bracket every
element individually and never the array as a whole: over scalar elements
the trace is exactly enter, apply, exit per element in order; over
empty-object elements it is exactly enter, exit per element (the object
recursion in between); and in both traces the number of enter events and of
exit events each equal the number of elements. -/
theorem C5_array_bracketing (k : String) :
    (∀ elems, (∀ e ∈ elems, e.isScalar = true) →
      doApply envTrace [0] k (.arr elems) ctxTrace =
        (none, addEvents (bracketEvents k elems) ctxTrace)) ∧
    (∀ n, doApply envTrace [0] k (.arr (List.replicate n (.obj []))) ctxTrace =
        (none, addEvents (bracketObjEvents k n) ctxTrace)) ∧
    (∀ elems, (bracketEvents k elems).countP isEnterEvent = elems.length ∧
      (bracketEvents k elems).countP isExitEvent = elems.length) ∧
    (∀ n, (bracketObjEvents k n).countP isEnterEvent = n ∧
      (bracketObjEvents k n).countP isExitEvent = n) := by
  refine ⟨?_, ?_, ?_, ?_⟩
  · intro elems hsc
    rw [doApply_arr envTrace [0] k elems ctxTrace rfl]
    exact doApplyArr_scalar_trace k elems ctxTrace [] rfl hsc
  · intro n
    rw [doApply_arr envTrace [0] k _ ctxTrace rfl]
    exact doApplyArr_objEmpty_trace k n ctxTrace [] rfl rfl
  · intro elems
    induction elems with
    | nil => simp [bracketEvents]
    | cons e rest ih =>
      simp [bracketEvents, isEnterEvent, isExitEvent, List.countP_cons, ih]
  · intro n
    induction n with
    | zero => simp [bracketObjEvents]
    | succ m ih =>
      simp [bracketObjEvents, isEnterEvent, isExitEvent, List.countP_cons, ih]

/-- C5 witness: a two-element scalar sequence under key `k` produces exactly
two enter/apply/exit brackets, and the enter count is 2. -/
theorem C5_array_bracketing_witness :
    doApply envTrace [0] "k" (.arr [.str "1", .str "2"]) ctxTrace =
      (none, addEvents [.enter 0 "k", .apply 0 "k" (.str "1"), .exit 0 "k",
                        .enter 0 "k", .apply 0 "k" (.str "2"), .exit 0 "k"] ctxTrace) ∧
    (bracketEvents "k" [.str "1", .str "2"]).countP isEnterEvent = 2 := by
  constructor
  · have h := (C5_array_bracketing "k").1 [.str "1", .str "2"]
      (by intro e he; fin_cases he <;> rfl)
    simpa [bracketEvents] using h
  · exact ((C5_array_bracketing "k").2.2.1 [.str "1", .str "2"]).1


/-- C1 counterexample: a traversal failure (unrecognized key `z`) does not
yield an absent or empty vocabulary — ParseVocabulary returns the error
together with a non-nil, partially populated vocabulary (the type the
handler inserted for key `a` before the failure is present), refuting the
claim's "absent/empty, never partially populated". -/
theorem C1_counterexample :
    (ParseVocabulary envC1 regC1 [0] inputC1).2 = some (.noNodeApply "z" (.str "y")) ∧
    (ParseVocabulary envC1 regC1 [0] inputC1).1 ≠ none ∧
    ((ParseVocabulary envC1 regC1 [0] inputC1).1.map fun pv => pv.Vocab.Types.length) =
      some 1 := by
  have hres : parseJSONLDContext regC1 inputC1 = .ok [] := by
    simp [parseJSONLDContext, lookupKey, inputC1, regC1, JSON_LD_CONTEXT]
  have hgn0 : initialParsingContext.GetNextNodes [0] =
      ([0], initialParsingContext, fun q => q) := rfl
  have hAa : applyFirstNode envC1 [0] "a" (.str "x") initialParsingContext =
      (none, cC1) := rfl
  have stepA : doApply envC1 [0] "a" (.str "x") initialParsingContext =
      (none, cC1) :=
    doApply_steps_scalar (show (Value.str "x").isScalar = true from rfl) hgn0 hAa rfl
  have hgn1 : cC1.GetNextNodes [0] = ([0], cC1, fun q => q) := rfl
  have hAz : applyFirstNode envC1 [0] "z" (.str "y") cC1 =
      (some (.noNodeApply "z" (.str "y")), cC1) := rfl
  have stepZ : doApply envC1 [0] "z" (.str "y") cC1 =
      (some (.noNodeApply "z" (.str "y")), cC1) :=
    doApply_steps_scalar (show (Value.str "y").isScalar = true from rfl) hgn1 hAz rfl
  have happly : apply envC1 [0] inputC1 initialParsingContext =
      (some (.noNodeApply "z" (.str "y")), cC1) := by
    rw [apply_eq_noType envC1 [0] inputC1 initialParsingContext rfl rfl rfl]
    show doApplyKeys envC1 [0]
      [("@context", Value.str "c"), ("a", Value.str "x"), ("z", Value.str "y")]
      initialParsingContext = _
    rw [doApplyKeys_skip (Or.inl (show "@context" = JSON_LD_CONTEXT from rfl))]
    rw [doApplyKeys_step (by decide) (by decide) (by decide) stepA]
    exact doApplyKeys_step_err (by decide) (by decide) (by decide) stepZ
  have h : ParseVocabulary envC1 regC1 [0] inputC1 =
      (some pvC1, some (.noNodeApply "z" (.str "y"))) := by
    rw [ParseVocabulary_resolved envC1 [0] hres]
    rw [show ([0] ++ [] : List Nat) = [0] from rfl, happly]
    rfl
  rw [h]
  exact ⟨rfl, by simp, rfl⟩

/-- C1 amended: when context resolution fails, ParseVocabulary returns no
vocabulary (nil) alongside the error; when context resolution succeeds, it
always returns the vocabulary as populated by the traversal — together with
the traversal's error when traversal fails, so a failed parse can return a
partially populated vocabulary and callers must consult the error. -/
theorem C1_failure_output (env : Nat → RDFNode) (reg : RDFRegistry)
    (J : List Nat) (input : List (String × Value)) :
    (∀ e, parseJSONLDContext reg input = .error e →
      ParseVocabulary env reg J input = (none, some e)) ∧
    (∀ ns, parseJSONLDContext reg input = .ok ns →
      ParseVocabulary env reg J input =
        (some (apply env (J ++ ns) input initialParsingContext).2.Result,
         (apply env (J ++ ns) input initialParsingContext).1)) := by
  constructor
  · intro e he
    rw [ParseVocabulary, he]
  · intro ns hns
    rw [ParseVocabulary, hns]

/-- C1 witness: an unresolvable `@context` name yields a nil vocabulary with
the registry's error. -/
theorem C1_failure_output_witness :
    ParseVocabulary envC1 regC1 [0] [(JSON_LD_CONTEXT, .str "q")] =
      (none, some (.registryUnknown "q")) := by
  exact (C1_failure_output envC1 regC1 [0] [(JSON_LD_CONTEXT, .str "q")]).1
    (.registryUnknown "q") (by simp [parseJSONLDContext, lookupKey, regC1])

theorem envC3_trace :
    doApply envC3 [3] "x" inputC3 ctxTrace = (none, cxF) := by
  have hgnA : cxA.GetNextNodes [3] =
      ([7], cxAc, fun q => { q with OnlyApplied := false }) := rfl
  have hEa : enterFirstNode envC3 [7] "a" cxAc = (none, cxB) := rfl
  have hgnB : cxB.GetNextNodes [3] = ([3], cxB, fun q => q) := rfl
  have hAc : applyFirstNode envC3 [3] "c" (.str "s") cxB = (none, cxC) := rfl
  have hDc : doApply envC3 [3] "c" (.str "s") cxB = (none, cxC) :=
    doApply_steps_scalar (show (Value.str "s").isScalar = true from rfl) hgnB hAc rfl
  have hIa : apply envC3 [3] [("c", .str "s")] cxB = (none, cxC) := by
    rw [apply_eq_noType envC3 [3] [("c", .str "s")] cxB rfl rfl rfl]
    rw [doApplyKeys_step (by decide) (by decide) (by decide) hDc]
    exact doApplyKeys_nil _ _ _
  have hXa : exitFirstNode envC3 [7] "a" cxC = (none, cxDc) := rfl
  have hDa : doApply envC3 [3] "a" (.obj [("c", .str "s")]) cxA = (none, cxD) :=
    doApply_steps_obj hgnA hEa hIa hXa rfl
  have hgnD : cxD.GetNextNodes [3] =
      ([7], cxDc, fun q => { q with OnlyApplied := false }) := rfl
  have hAb : applyFirstNode envC3 [7] "b" (.str "t") cxDc = (none, cxEc) := rfl
  have hDb : doApply envC3 [3] "b" (.str "t") cxD = (none, cxE) :=
    doApply_steps_scalar (show (Value.str "t").isScalar = true from rfl) hgnD hAb rfl
  have hIx : apply envC3 [3] [("a", .obj [("c", .str "s")]), ("b", .str "t")] cxA =
      (none, cxE) := by
    rw [apply_eq_noType envC3 [3] [("a", .obj [("c", .str "s")]), ("b", .str "t")]
      cxA rfl rfl rfl]
    rw [doApplyKeys_step (by decide) (by decide) (by decide) hDa]
    rw [doApplyKeys_step (by decide) (by decide) (by decide) hDb]
    exact doApplyKeys_nil _ _ _
  have hgn0 : ctxTrace.GetNextNodes [3] = ([3], ctxTrace, fun q => q) := rfl
  have hE0 : enterFirstNode envC3 [3] "x" ctxTrace = (none, cxA) := rfl
  have hX0 : exitFirstNode envC3 [3] "x" cxE = (none, cxF) := rfl
  show doApply envC3 [3] "x" (.obj [("a", .obj [("c", .str "s")]), ("b", .str "t")])
    ctxTrace = _
  exact doApply_steps_obj hgn0 hE0 hIx hX0 rfl

/-- C3 counterexample: handler 3 arms the next-level override towards
handler 7 on entering `x`; the dispatch of the first child `a` consumes it,
yet the sibling key `b` of the same level is again dispatched exclusively to
handler 7 and never reaches the full handler list [3] — refuting the
claim's "every subsequent dispatch (sibling keys at the same level ...)
uses the full handler list again". -/
theorem C3_counterexample :
    TraceEvent.apply 7 "b" (.str "t") ∈
      (doApply envC3 [3] "x" inputC3 ctxTrace).2.Current.events ∧
    TraceEvent.apply 3 "b" (.str "t") ∉
      (doApply envC3 [3] "x" inputC3 ctxTrace).2.Current.events := by
  rw [envC3_trace]
  constructor
  · simp [cxF, Entity.events]
  · simp [cxF, Entity.events]

/-- C3 amended: GetNextNodes hands out the override handler exclusively on
every dispatch step that starts while the override is armed and unconsumed,
marking it consumed for the duration of that step (so deeper recursion
inside the step uses the full list), and the step's clearFn re-arms it on
completion; the override therefore applies to each dispatch at the next
level — consumption does not end it, and it persists until explicitly
reset.  Concretely: after child `a` consumes the override, deeper key `c`
is dispatched to the full list (handler 3) while sibling `b` is again
dispatched exclusively to override handler 7. -/
theorem C3_next_level_override (ctx : ParsingContext) (nodes : List Nat) :
    (ctx.OnlyApplyThisNodeNextLevel = none →
      ctx.GetNextNodes nodes = (nodes, ctx, fun q => q)) ∧
    (∀ nid, ctx.OnlyApplyThisNodeNextLevel = some nid → ctx.OnlyApplied = true →
      ctx.GetNextNodes nodes = (nodes, ctx, fun q => q)) ∧
    (∀ nid, ctx.OnlyApplyThisNodeNextLevel = some nid → ctx.OnlyApplied = false →
      ctx.GetNextNodes nodes =
        ([nid], { ctx with OnlyApplied := true },
         fun q => { q with OnlyApplied := false })) ∧
    (doApply envC3 [3] "x" inputC3 ctxTrace).2.Current.events =
      [.enter 3 "x", .enter 7 "a", .apply 3 "c" (.str "s"), .exit 7 "a",
       .apply 7 "b" (.str "t"), .exit 3 "x"] := by
  refine ⟨?_, ?_, ?_, ?_⟩
  · intro h
    simp [ParsingContext.GetNextNodes, h]
  · intro nid h1 h2
    simp [ParsingContext.GetNextNodes, h1, h2]
  · intro nid h1 h2
    simp [ParsingContext.GetNextNodes, h1, h2]
  · rw [envC3_trace]
    rfl

/-- C3 witness: the three GetNextNodes regimes at concrete contexts — no
override set, armed and unconsumed (exclusive dispatch), and the result of
consumption. -/
theorem C3_next_level_override_witness :
    ({} : ParsingContext).GetNextNodes [5] = ([5], {}, fun q => q) ∧
    ({ OnlyApplyThisNodeNextLevel := some 7 } : ParsingContext).GetNextNodes [5] =
      ([7], { OnlyApplyThisNodeNextLevel := some 7, OnlyApplied := true },
       fun q => { q with OnlyApplied := false }) := by
  constructor
  · exact (C3_next_level_override {} [5]).1 rfl
  · exact (C3_next_level_override { OnlyApplyThisNodeNextLevel := some 7 } [5]).2.2.1
      7 rfl rfl

end Rdf
